import Mathlib

set_option maxRecDepth 100000

/-
Verification of the incremental classification pipeline (llm_filter.py).

The embedding models:
  * `extract_conclusion` — the regex-based verdict extractor, including the
    exact backtracking behavior of the pattern
    result\s*[:：]?\s*(?:\*\*|'|X)*(-?1|0)(?:\*\*|'|X)*\b  (X = backtick)
    under re.IGNORECASE and re.findall's non-overlapping left-to-right scan
    (ASCII model of \s, \w and case folding);
  * `extract_papers_of_topic` — the interactive verdict filter/exporter,
    with its selection-string parsing (strip, remove spaces, split on commas,
    Python int() parsing, assert on -1/0/1 membership) and the pure filter;
  * the prompt builder — the chained Python str.replace substitutions into
    PPFILTER_USRPROMPT;
  * the classification driver loop of `main` — the per-paper state updates
    to the in-memory report accumulator and the append-only jsonl log, and
    the finalization step that writes the final report and removes the log.

Strings are modelled by Lean `String` (a wrapper around `List Char`);
file contents are modelled by `Option` fields (none = file absent).
-/

/-- Word characters of the regex word-boundary \b (ASCII model of \w). -/
def isWordChar (c : Char) : Bool := c.isAlphanum || c = '_'

/-- Whitespace matched by the regex \s (ASCII model). -/
def isPySpace (c : Char) : Bool :=
  c = ' ' || c = '\t' || c = '\n' || c = '\r' || c = Char.ofNat 11 || c = Char.ofNat 12

/-- The single-quote character (written via its code point). -/
def quoteC : Char := Char.ofNat 39

/-- The backtick character (written via its code point). -/
def backtickC : Char := Char.ofNat 96

/-- Word-boundary test \b between the last consumed character `prev` and the
remaining input: it holds iff exactly one side is a word character
(end of input counts as a non-word character). -/
def boundaryOk (prev : Char) : List Char → Bool
  | [] => isWordChar prev
  | c :: _ => isWordChar prev != isWordChar c

/-- Trailing emphasis markup (?:\*\*|'|backtick)* followed by \b, with the
regex engine's greedy backtracking: consume as many emphasis units as
possible, then give units back one at a time until the word boundary after
`prev` (the last consumed character) holds.  Returns the remaining input at
the end of the whole match, or `none` if no unit count makes \b hold. -/
def emphB (prev : Char) : List Char → Option (List Char)
  | '*' :: '*' :: rest =>
    (match emphB '*' rest with
     | some r => some r
     | none => if boundaryOk prev ('*' :: '*' :: rest) then some ('*' :: '*' :: rest) else none)
  | c :: rest =>
    if c = quoteC ∨ c = backtickC then
      (match emphB c rest with
       | some r => some r
       | none => if boundaryOk prev (c :: rest) then some (c :: rest) else none)
    else if boundaryOk prev (c :: rest) then some (c :: rest) else none
  | [] => if isWordChar prev then some [] else none

/-- Leading emphasis markup (?:\*\*|'|backtick)*: plain maximal munch.
(No backtracking is needed here because the value token that follows starts
with one of -, 1, 0, which is never the first character of a unit.) -/
def dropEmph : List Char → List Char
  | '*' :: '*' :: rest => dropEmph rest
  | c :: rest => if c = quoteC ∨ c = backtickC then dropEmph rest else c :: rest
  | [] => []

/-- Maximal munch of \s* (greedy, no backtracking needed: no following
token of the pattern matches a whitespace character). -/
def dropWs (s : List Char) : List Char := s.dropWhile isPySpace

/-- The optional colon [:：]? (ASCII or full-width). -/
def dropColon : List Char → List Char
  | c :: rest => if c = ':' ∨ c = '：' then rest else c :: rest
  | [] => []

/-- Case-insensitive literal match (IGNORECASE, ASCII model): the pattern
`p` is given in lowercase; on success returns the remaining input. -/
def matchCI : List Char → List Char → Option (List Char)
  | [], s => some s
  | _ :: _, [] => none
  | p :: ps, c :: cs => if c.toLower = p then matchCI ps cs else none

/-- The literal token of the pattern. -/
def resultPat : List Char := ['r', 'e', 's', 'u', 'l', 't']

/-- The value token (-?1|0) with the regex alternation order, followed by
trailing emphasis and the word boundary.  Yields the captured value and the
remaining input after the match. -/
def matchValue : List Char → Option (Int × List Char)
  | '-' :: '1' :: rest => (emphB '1' rest).map (fun r => ((-1 : Int), r))
  | '1' :: rest => (emphB '1' rest).map (fun r => ((1 : Int), r))
  | '0' :: rest => (emphB '0' rest).map (fun r => ((0 : Int), r))
  | _ => none

/-- One attempt to match the whole pattern at the current position. -/
def matchResultAt (s : List Char) : Option (Int × List Char) :=
  match matchCI resultPat s with
  | none => none
  | some s1 => matchValue (dropEmph (dropWs (dropColon (dropWs s1))))

/-- re.findall's scan: try a match at each position left to right; on a
match record the captured group and resume after the match (non-overlapping),
otherwise advance one character.  The fuel is an upper bound on the number of
steps; every step consumes at least one character, so fuel = input length
suffices (`findallAux_fuel`). -/
def findallAux : Nat → List Char → List Int
  | _, [] => []
  | 0, _ => []
  | fuel + 1, c :: rest =>
    match matchResultAt (c :: rest) with
    | some (v, r) => v :: findallAux fuel r
    | none => findallAux fuel rest

/-- All captured groups of the pattern in the input, in order. -/
def reFindall (s : List Char) : List Int := findallAux s.length s

/-- The verdict extractor `extract_conclusion` of llm_filter.py: empty input
gives None; otherwise the last captured match is converted to an integer and
returned if it lies in {-1, 0, 1}. -/
def extract_conclusion (llm_output : String) : Option Int :=
  if llm_output.data = [] then none
  else
    match (reFindall llm_output.data).getLast? with
    | some v => if v = -1 ∨ v = 0 ∨ v = 1 then some v else none
    | none => none

/-- A record of the run report: either the header dict
`\x7btopic_desc, venue, year\x7d` (which has no is_of_topic key) or a
classification-result dict. -/
inductive ReportEntry where
  | header (topic_desc venue year : String)
  | result (paper_title paper_abstract : String) (is_of_topic : Option Int) (llm_analysis : String)
deriving DecidableEq

/-- Python r.get("is_of_topic", None): None both when the key is absent
(header record) and when it is present with value None. -/
def getIsOfTopic : ReportEntry → Option Int
  | .header _ _ _ => none
  | .result _ _ v _ => v

/-- The pure filtering loop of `extract_papers_of_topic`: keep, in input
order, the records whose is_of_topic value is present and belongs to the
approved set; records whose value is None are skipped. -/
def replies_of_topic (approved_topics : Finset Int) : List ReportEntry → List ReportEntry
  | [] => []
  | r :: rest =>
    match getIsOfTopic r with
    | none => replies_of_topic approved_topics rest
    | some v =>
      if v ∈ approved_topics then r :: replies_of_topic approved_topics rest
      else replies_of_topic approved_topics rest

/-- Outcome of one iteration of the selection loop of
`extract_papers_of_topic`. -/
inductive SelectionOutcome where
  | endExport
  | accepted (approved : Finset Int)
  | reprompt
deriving DecidableEq

/-- Python s.split(str of comma): note "".split gives [""]. -/
def splitComma : List Char → List (List Char)
  | [] => [[]]
  | ',' :: rest => [] :: splitComma rest
  | c :: rest =>
    match splitComma rest with
    | [] => [[c]]
    | p :: ps => (c :: p) :: ps

/-- Python s.strip(): whitespace removed from both ends (ASCII model). -/
def stripWs (s : List Char) : List Char :=
  ((s.dropWhile isPySpace).reverse.dropWhile isPySpace).reverse

/-- Python s.replace of a space by the empty string: remove all spaces. -/
def removeSpaces (s : List Char) : List Char := s.filter (fun c => c != ' ')

/-- Digits of a decimal literal (nonempty, all digits), as a Nat. -/
def digitsToNat (s : List Char) : Option Nat :=
  if s ≠ [] ∧ s.all Char.isDigit then
    some (s.foldl (fun a c => a * 10 + (c.toNat - 48)) 0)
  else none

/-- Python int(s) on a decimal string: optional sign then digits; None
models a ValueError (ASCII model, without underscore grouping). -/
def pyInt (s : List Char) : Option Int :=
  match stripWs s with
  | '-' :: ds => (digitsToNat ds).map (fun n => -(n : Int))
  | '+' :: ds => (digitsToNat ds).map (fun n => (n : Int))
  | ds => (digitsToNat ds).map (fun n => (n : Int))

/-- Python s.lower() (ASCII model). -/
def pyLower (s : String) : String := ⟨s.data.map Char.toLower⟩

/-- One iteration of the selection loop of `extract_papers_of_topic`:
an answer whose lower-case form is "n" returns (end of export); otherwise
the answer is stripped, its spaces removed, split on commas and parsed with
int(); a parse failure (ValueError) or a parsed set containing none of
-1, 0, 1 (the assert) raises, is caught, and re-prompts. -/
def selectionStep (answer : String) : SelectionOutcome :=
  if pyLower answer = "n" then .endExport
  else
    match (splitComma (removeSpaces (stripWs answer.data))).mapM pyInt with
    | none => .reprompt
    | some vs =>
      let approved := vs.toFinset
      if -1 ∈ approved ∨ 0 ∈ approved ∨ 1 ∈ approved then .accepted approved
      else .reprompt

/-- The whole of `extract_papers_of_topic`, driven by the successive
operator answers: re-prompts until an answer is accepted ('n' returns with
no file written — `some none`; an accepted set writes the filtered records —
`some (some ...)`); `none` means every answer so far re-prompted. -/
def extract_papers_of_topic : List String → List ReportEntry → Option (Option (List ReportEntry))
  | [], _ => none
  | answer :: rest, replies =>
    match selectionStep answer with
    | .endExport => some none
    | .accepted approved => some (some (replies_of_topic approved replies))
    | .reprompt => extract_papers_of_topic rest replies

/-- Boolean prefix test on character lists. -/
def isPre : List Char → List Char → Bool
  | [], _ => true
  | _ :: _, [] => false
  | p :: ps, c :: cs => decide (p = c) && isPre ps cs

/-- Boolean occurrence test: does `pat` occur as a contiguous substring? -/
def containsPat (pat : List Char) : List Char → Bool
  | [] => pat.isEmpty
  | c :: rest => isPre pat (c :: rest) || containsPat pat rest

/-- Python str.replace scan: replace every non-overlapping occurrence of
`pat`, left to right; after a hit the scan resumes after the consumed
occurrence.  Every step consumes at least one character, so fuel = input
length suffices. -/
def replaceAllAux (pat sub : List Char) : Nat → List Char → List Char
  | _, [] => []
  | 0, s => s
  | fuel + 1, c :: rest =>
    if isPre pat (c :: rest) then sub ++ replaceAllAux pat sub fuel (List.drop pat.length (c :: rest))
    else c :: replaceAllAux pat sub fuel rest

/-- Python s.replace(pat, sub). -/
def pyReplace (s pat sub : String) : String :=
  ⟨replaceAllAux pat.data sub.data s.data.length s.data⟩

/-- The system prompt PPFILTER_SYSPROMPT of llm_filter.py. -/
def PPFILTER_SYSPROMPT : String :=
  "You are an expert academic researcher and library scientist. Your task is to classify whether a given research paper belongs to a specific Target Topic/Domain based on its Title, Venue, Year, and Abstract.\n\n### Classification Criteria\nPlease evaluate the relevance using the following strict scale:\n\n* **1 (Relevant):** The paper explicitly addresses, contributes to, or heavily relies on the Target Topic. The abstract discusses core concepts, methods, or applications directly related to the topic.\n* **0 (Unsure/insufficient Info):** The abstract is ambiguous, the connection to the topic is extremely tangential, or the paper sits on the boundary. The provided information is not enough to make a definitive \"Yes\" or \"No\".\n* **-1 (Irrelevant):** The paper belongs to a completely different field, or uses the keywords in a context unrelated to the Target Topic (e.g., \"Apple\" as a fruit vs. \"Apple\" as a tech company).\n\n### Steps for Analysis\n1.  **Analyze the Target Topic:** Understand the semantic meaning of the provided keywords or description.\n2.  **Analyze the Paper:** Read the Title and Abstract. Check the Venue (Conference/Journal) for context (e.g., a CVPR paper is likely about Computer Vision).\n3.  **Determine Relevance:** Look for semantic alignment, not just keyword matching.\n4.  **Formulate Output:** Generate a brief analysis and the final numeric result.\n\n### Output Format\nYou must output the result strictly in the following format (do not use Markdown code blocks, just plain text):\n\nAnalysis: [Your brief reasoning here, explaining why it fits or doesn\x27t fit within 1-3 sentences.]\nResult: [Output only one number: -1, 0, or 1]\n"

/-- The user-prompt template PPFILTER_USRPROMPT of llm_filter.py
(braces written with code-point escapes). -/
def PPFILTER_USRPROMPT : String :=
  "### Target Topic/Domain Description\n\x7b\x7btopic_description\x7d\x7d\n\n### Paper Information\n**Title:** \x7b\x7bpaper_title\x7d\x7d\n**Venue & Year:** \x7b\x7bpaper_venue\x7d\x7d, \x7b\x7bpaper_year\x7d\x7d\n**Abstract:**\n\x7b\x7bpaper_abstract\x7d\x7d\n\n---\nBased on the instructions, please provide the Analysis and Result.\n"

/-- The placeholder replaced first. -/
def phTopicDescription : String := "\x7b\x7btopic_description\x7d\x7d"

/-- The placeholder replaced second. -/
def phPaperTitle : String := "\x7b\x7bpaper_title\x7d\x7d"

/-- The placeholder replaced third. -/
def phPaperVenue : String := "\x7b\x7bpaper_venue\x7d\x7d"

/-- The placeholder replaced fourth. -/
def phPaperYear : String := "\x7b\x7bpaper_year\x7d\x7d"

/-- The placeholder replaced fifth. -/
def phPaperAbstract : String := "\x7b\x7bpaper_abstract\x7d\x7d"

/-- Literal template text before the topic-description placeholder. -/
def seg1 : String := "### Target Topic/Domain Description\n"

/-- Literal template text between the first and second placeholders. -/
def seg2 : String := "\n\n### Paper Information\n**Title:** "

/-- Literal template text between the second and third placeholders. -/
def seg3 : String := "\n**Venue & Year:** "

/-- Literal template text between the third and fourth placeholders. -/
def seg4 : String := ", "

/-- Literal template text between the fourth and fifth placeholders. -/
def seg5 : String := "\n**Abstract:**\n"

/-- Literal template text after the last placeholder. -/
def seg6 : String := "\n\n---\nBased on the instructions, please provide the Analysis and Result.\n"

/-- The prompt builder of `main` (lines 161-167): the chain of Python
str.replace calls on PPFILTER_USRPROMPT, in source order. -/
def buildUserPrompt (topic_desc title venue year abstract : String) : String :=
  pyReplace
    (pyReplace
      (pyReplace
        (pyReplace
          (pyReplace PPFILTER_USRPROMPT phTopicDescription topic_desc)
          phPaperTitle title)
        phPaperVenue venue)
      phPaperYear year)
    phPaperAbstract abstract

/-- Modelled from the spec: the user message with each of the five template
placeholders replaced exactly once, simultaneously and literally (the
reference point for the replaced-exactly-once claim). -/
def userPromptSpec (topic_desc title venue year abstract : String) : String :=
  ⟨seg1.data ++ topic_desc.data ++ seg2.data ++ title.data ++ seg3.data ++
    venue.data ++ seg4.data ++ year.data ++ seg5.data ++ abstract.data ++ seg6.data⟩

/-- An input value contains none of the five placeholders as a substring. -/
def phFree (s : String) : Prop :=
  containsPat phTopicDescription.data s.data = false ∧
  containsPat phPaperTitle.data s.data = false ∧
  containsPat phPaperVenue.data s.data = false ∧
  containsPat phPaperYear.data s.data = false ∧
  containsPat phPaperAbstract.data s.data = false

instance (s : String) : Decidable (phFree s) := by
  unfold phFree; infer_instance

/-- An input paper record (title and abstract from the paper list). -/
structure PaperInfo where
  title : String
  abstract : String
deriving DecidableEq

/-- The driver-visible state of `main`: the in-memory replies accumulator,
the jsonl durable-log file and the final report file (none = file absent;
a file is modelled by the list of records serialized into it, the jsonl one
record per line). -/
structure DriverState where
  replies : List ReportEntry
  jsonl : Option (List ReportEntry)
  finalFile : Option (List ReportEntry)
deriving DecidableEq

/-- The state at the start of the classification loop: the accumulator
holds only the header record; no files written yet. -/
def initDriverState (topic_desc conf year : String) : DriverState :=
  { replies := [ReportEntry.header topic_desc conf year]
    jsonl := none
    finalFile := none }

/-- One paper's classification (lines 161-185): build the prompts, call the
judge (the chat-completion endpoint, modelled as a function from the two
messages to the reply text), extract the verdict, build the reply dict. -/
def classifyOne (judge : String → String → String) (topic_desc conf year : String)
    (ppinfo : PaperInfo) : ReportEntry :=
  let reply := judge PPFILTER_SYSPROMPT (buildUserPrompt topic_desc ppinfo.title conf year ppinfo.abstract)
  ReportEntry.result ppinfo.title ppinfo.abstract (extract_conclusion reply) reply

/-- One loop iteration of `main` (lines 160-189): append the reply dict to
the accumulator and one serialized line to the jsonl log (append mode,
creating the file if absent). -/
def mainStep (judge : String → String → String) (topic_desc conf year : String)
    (st : DriverState) (ppinfo : PaperInfo) : DriverState :=
  let rd := classifyOne judge topic_desc conf year ppinfo
  { st with
    replies := st.replies ++ [rd]
    jsonl := some (st.jsonl.getD [] ++ [rd]) }

/-- The classification loop of `main`, processing the papers in input
order, strictly sequentially. -/
def mainLoop (judge : String → String → String) (topic_desc conf year : String)
    (st : DriverState) : List PaperInfo → DriverState
  | [] => st
  | pp :: rest => mainLoop judge topic_desc conf year (mainStep judge topic_desc conf year st pp) rest

/-- The finalization of `main` (lines 191-195): write the whole accumulator
to the final report file and, if that file now exists, remove the jsonl
log.  `writeOk = false` models the final write raising: execution aborts
before the removal, leaving the state (in particular the log) untouched. -/
def finalizeReport (st : DriverState) (writeOk : Bool) : DriverState :=
  if writeOk then
    let st1 : DriverState := { st with finalFile := some st.replies }
    if st1.finalFile.isSome then { st1 with jsonl := none } else st1
  else st

/-- Predicate used in the replacement lemmas: no occurrence of `pat` starts
at any position strictly inside `xs` in the string `xs ++ ys`. -/
def noHitIn (pat xs ys : List Char) : Prop :=
  ∀ i, i < xs.length → ¬ pat <+: (List.drop i xs ++ ys)

/-- The opening-brace character (written via its code point). -/
def lbraceC : Char := Char.ofNat 123

/-- The template suffix after the topic-description placeholder. -/
def tplRest1 : List Char :=
  seg2.data ++ (phPaperTitle.data ++ (seg3.data ++ (phPaperVenue.data ++
    (seg4.data ++ (phPaperYear.data ++ (seg5.data ++ (phPaperAbstract.data ++ seg6.data)))))))

/-- The template suffix after the paper-title placeholder. -/
def tplRest2 : List Char :=
  seg3.data ++ (phPaperVenue.data ++ (seg4.data ++ (phPaperYear.data ++
    (seg5.data ++ (phPaperAbstract.data ++ seg6.data)))))

/-- The template suffix after the paper-venue placeholder. -/
def tplRest3 : List Char :=
  seg4.data ++ (phPaperYear.data ++ (seg5.data ++ (phPaperAbstract.data ++ seg6.data)))

/-- The template suffix after the paper-year placeholder. -/
def tplRest4 : List Char :=
  seg5.data ++ (phPaperAbstract.data ++ seg6.data)

theorem matchValue_val {s : List Char} {v : Int} {r : List Char}
    (h : matchValue s = some (v, r)) : v = -1 ∨ v = 0 ∨ v = 1 := by
  rw [matchValue.eq_def] at h
  split at h <;> simp_all [Option.map_eq_some', Prod.mk.injEq]

theorem matchResultAt_val {s : List Char} {v : Int} {r : List Char}
    (h : matchResultAt s = some (v, r)) : v = -1 ∨ v = 0 ∨ v = 1 := by
  unfold matchResultAt at h
  split at h
  · exact absurd h (by simp)
  · exact matchValue_val h

theorem findallAux_val (fuel : Nat) :
    ∀ (s : List Char) (v : Int), v ∈ findallAux fuel s → v = -1 ∨ v = 0 ∨ v = 1 := by
  induction fuel with
  | zero =>
    intro s v hv
    cases s <;> simp [findallAux] at hv
  | succ f ih =>
    intro s v hv
    cases s with
    | nil => simp [findallAux] at hv
    | cons c rest =>
      simp only [findallAux] at hv
      cases h : matchResultAt (c :: rest) with
      | some p =>
        obtain ⟨w, r⟩ := p
        rw [h] at hv
        simp only [List.mem_cons] at hv
        rcases hv with rfl | hv
        · exact matchResultAt_val h
        · exact ih _ _ hv
      | none =>
        rw [h] at hv
        exact ih _ _ hv

theorem reFindall_val {s : List Char} {v : Int} (hv : v ∈ reFindall s) :
    v = -1 ∨ v = 0 ∨ v = 1 :=
  findallAux_val _ _ _ hv

theorem string_data_ne_nil {s : String} (h : s ≠ "") : s.data ≠ [] := by
  intro hd
  apply h
  cases s
  subst hd
  rfl

/-- C1: the verdict extractor accepts the documented surface forms and
rejects longer digit runs: extract_conclusion of "Result: v" is v for each
v in -1, 0, 1; "Result: **1**" gives 1; "Result: 10" gives none; the empty
string gives none. -/
theorem extract_conclusion_surface_forms :
    extract_conclusion "Result: -1" = some (-1) ∧
    extract_conclusion "Result: 0" = some 0 ∧
    extract_conclusion "Result: 1" = some 1 ∧
    extract_conclusion "Result: **1**" = some 1 ∧
    extract_conclusion "Result: 10" = none ∧
    extract_conclusion "" = none := by
  decide

/-- C2: when the reply contains at least one match of the result pattern,
the extractor returns the value of the last match (the captured value list
is in text order, so matches[-1] is the last match); in particular
"Result: 1 ... Result: -1" gives -1. -/
theorem extract_conclusion_last_match (s : String) (hne : s ≠ "")
    (hm : reFindall s.data ≠ []) :
    extract_conclusion s = (reFindall s.data).getLast? ∧
    extract_conclusion "Result: 1 ... Result: -1" = some (-1) := by
  constructor
  · unfold extract_conclusion
    rw [if_neg (string_data_ne_nil hne)]
    rw [List.getLast?_eq_getLast_of_ne_nil hm]
    have hv := reFindall_val (List.getLast_mem hm)
    simp only [if_pos hv]
  · decide

theorem extract_conclusion_last_match_witness :
    ("Result: 1 ... Result: -1" : String) ≠ "" ∧
    reFindall ("Result: 1 ... Result: -1" : String).data ≠ [] ∧
    extract_conclusion "Result: 1 ... Result: -1" =
      (reFindall ("Result: 1 ... Result: -1" : String).data).getLast? :=
  ⟨by decide, by decide,
    (extract_conclusion_last_match "Result: 1 ... Result: -1" (by decide) (by decide)).1⟩

/-- C7: the extractor returns none exactly when no valid verdict is
present: none on the empty string, none when the pattern matches nowhere,
and in every case the result is one of -1, 0, 1 or none, never another
integer. -/
theorem extract_conclusion_range (s : String) :
    (s = "" → extract_conclusion s = none) ∧
    (reFindall s.data = [] → extract_conclusion s = none) ∧
    (extract_conclusion s = none ∨ extract_conclusion s = some (-1) ∨
      extract_conclusion s = some 0 ∨ extract_conclusion s = some 1) := by
  refine ⟨?_, ?_, ?_⟩
  · rintro rfl
    decide
  · intro h
    unfold extract_conclusion
    split
    · rfl
    · rw [h]
      rfl
  · unfold extract_conclusion
    split
    · exact Or.inl rfl
    · split
      · rename_i v heq
        split
        · rename_i hv
          rcases hv with rfl | rfl | rfl
          · exact Or.inr (Or.inl rfl)
          · exact Or.inr (Or.inr (Or.inl rfl))
          · exact Or.inr (Or.inr (Or.inr rfl))
        · exact Or.inl rfl
      · exact Or.inl rfl

theorem extract_conclusion_range_witness :
    reFindall ("no verdict" : String).data = [] ∧
    extract_conclusion "no verdict" = none :=
  ⟨by decide, (extract_conclusion_range "no verdict").2.1 (by decide)⟩

theorem mem_replies_of_topic {approved : Finset Int} {l : List ReportEntry} {r : ReportEntry}
    (h : r ∈ replies_of_topic approved l) :
    r ∈ l ∧ ∃ v, getIsOfTopic r = some v ∧ v ∈ approved := by
  induction l with
  | nil => simp [replies_of_topic] at h
  | cons x rest ih =>
    cases hx : getIsOfTopic x with
    | none =>
      simp only [replies_of_topic, hx] at h
      have hr := ih h
      exact ⟨List.mem_cons_of_mem _ hr.1, hr.2⟩
    | some v =>
      simp only [replies_of_topic, hx] at h
      by_cases hv : v ∈ approved
      · rw [if_pos hv] at h
        rcases List.mem_cons.mp h with rfl | h2
        · exact ⟨List.mem_cons_self _ _, v, hx, hv⟩
        · have hr := ih h2
          exact ⟨List.mem_cons_of_mem _ hr.1, hr.2⟩
      · rw [if_neg hv] at h
        have hr := ih h
        exact ⟨List.mem_cons_of_mem _ hr.1, hr.2⟩

theorem mainLoop_replies (judge : String → String → String) (td conf yr : String)
    (papers : List PaperInfo) : ∀ st : DriverState,
    (mainLoop judge td conf yr st papers).replies
      = st.replies ++ papers.map (classifyOne judge td conf yr) := by
  induction papers with
  | nil => intro st; simp [mainLoop]
  | cons pp rest ih =>
    intro st
    rw [mainLoop, ih]
    simp [mainStep]

theorem mainLoop_jsonl (judge : String → String → String) (td conf yr : String)
    (papers : List PaperInfo) : ∀ st : DriverState,
    (mainLoop judge td conf yr st papers).jsonl.getD []
      = st.jsonl.getD [] ++ papers.map (classifyOne judge td conf yr) := by
  induction papers with
  | nil => intro st; simp [mainLoop]
  | cons pp rest ih =>
    intro st
    rw [mainLoop, ih]
    simp [mainStep]

theorem mainLoop_finalFile (judge : String → String → String) (td conf yr : String)
    (papers : List PaperInfo) : ∀ st : DriverState,
    (mainLoop judge td conf yr st papers).finalFile = st.finalFile := by
  induction papers with
  | nil => intro st; simp [mainLoop]
  | cons pp rest ih =>
    intro st
    rw [mainLoop, ih]
    simp [mainStep]

/-- C5: the driver's output report is a single TopicQuery header record
followed by exactly one ClassificationResult per input paper, in input
order, for every input sequence and every judge. -/
theorem driver_report_shape (topic_desc conf year : String)
    (judge : String → String → String) (papers : List PaperInfo) :
    (mainLoop judge topic_desc conf year (initDriverState topic_desc conf year) papers).replies
      = ReportEntry.header topic_desc conf year :: papers.map (classifyOne judge topic_desc conf year)
    ∧ (mainLoop judge topic_desc conf year (initDriverState topic_desc conf year) papers).replies.length
      = papers.length + 1 := by
  have h := mainLoop_replies judge topic_desc conf year papers (initDriverState topic_desc conf year)
  constructor
  · rw [h]
    rfl
  · rw [h]
    simp [initDriverState]

/-- C3: the durable jsonl log is deleted only after the final report is
successfully written: after processing k of n papers the log holds exactly
k records and the final report file does not exist; a failing final write
leaves the log (and state) untouched; and when the log exists, finalization
removes it exactly when the write succeeded, in which case the final file
holds the full accumulator. -/
theorem durable_log_lifecycle (topic_desc conf year : String)
    (judge : String → String → String) (papers : List PaperInfo) (k : Nat)
    (hk : k ≤ papers.length) :
    (((mainLoop judge topic_desc conf year (initDriverState topic_desc conf year) (papers.take k)).jsonl.getD []).length = k
      ∧ (mainLoop judge topic_desc conf year (initDriverState topic_desc conf year) (papers.take k)).finalFile = none)
    ∧ (∀ st : DriverState,
        (finalizeReport st false).jsonl = st.jsonl ∧ (finalizeReport st false).finalFile = st.finalFile)
    ∧ (∀ (st : DriverState) (b : Bool), st.jsonl ≠ none →
        (((finalizeReport st b).jsonl = none) ↔ b = true)
        ∧ (b = true → (finalizeReport st b).finalFile = some st.replies)) := by
  refine ⟨⟨?_, ?_⟩, ?_, ?_⟩
  · rw [mainLoop_jsonl]
    simp [initDriverState, List.length_take]
    omega
  · rw [mainLoop_finalFile]
    rfl
  · intro st
    simp [finalizeReport]
  · intro st b hst
    cases b
    · simp [finalizeReport, hst]
    · simp [finalizeReport]

theorem durable_log_lifecycle_witness :
    (1 ≤ ([⟨"A", "x"⟩, ⟨"B", "y"⟩] : List PaperInfo).length) ∧
    ((mainLoop (fun _ _ => "Result: 1") "t" "c" "2025" (initDriverState "t" "c" "2025")
        (([⟨"A", "x"⟩, ⟨"B", "y"⟩] : List PaperInfo).take 1)).jsonl.getD []).length = 1 ∧
    (mainLoop (fun _ _ => "Result: 1") "t" "c" "2025" (initDriverState "t" "c" "2025")
        (([⟨"A", "x"⟩, ⟨"B", "y"⟩] : List PaperInfo).take 1)).finalFile = none := by
  have h := durable_log_lifecycle "t" "c" "2025" (fun _ _ => "Result: 1")
    [⟨"A", "x"⟩, ⟨"B", "y"⟩] 1 (by decide)
  exact ⟨by decide, h.1.1, h.1.2⟩

/-- C6: a record whose verdict is null is excluded by the topic filter,
regardless of which verdict values the accepted set contains. -/
theorem filter_excludes_null (approved : Finset Int) (replies : List ReportEntry)
    (r : ReportEntry) (h : getIsOfTopic r = none) :
    r ∉ replies_of_topic approved replies := by
  intro hmem
  obtain ⟨-, v, hv, -⟩ := mem_replies_of_topic hmem
  rw [h] at hv
  exact Option.noConfusion hv

theorem filter_excludes_null_witness :
    getIsOfTopic (ReportEntry.result "A" "x" none "r") = none ∧
    (ReportEntry.result "A" "x" none "r") ∉
      replies_of_topic {1}
        [ReportEntry.result "A" "x" none "r", ReportEntry.result "B" "y" (some 1) "ok"] :=
  ⟨rfl, filter_excludes_null {1} _ _ rfl⟩

/-- C8: the topic filter is idempotent: filtering an already-filtered
sequence by the same accepted set returns it unchanged. -/
theorem filter_idempotent (approved : Finset Int) (replies : List ReportEntry) :
    replies_of_topic approved (replies_of_topic approved replies) =
      replies_of_topic approved replies := by
  induction replies with
  | nil => rfl
  | cons x rest ih =>
    cases hx : getIsOfTopic x with
    | none =>
      have h1 : replies_of_topic approved (x :: rest) = replies_of_topic approved rest := by
        simp only [replies_of_topic, hx]
      rw [h1, ih]
    | some v =>
      by_cases hv : v ∈ approved
      · have h1 : replies_of_topic approved (x :: rest) = x :: replies_of_topic approved rest := by
          simp only [replies_of_topic, hx]
          rw [if_pos hv]
        rw [h1]
        simp only [replies_of_topic, hx]
        rw [if_pos hv, ih]
      · have h1 : replies_of_topic approved (x :: rest) = replies_of_topic approved rest := by
          simp only [replies_of_topic, hx]
          rw [if_neg hv]
        rw [h1, ih]

/-- C10: every record kept by the topic filter carries a present verdict
belonging to the accepted set, so the header record (whose verdict lookup
is none) is never in the filtered export; the header the driver passes to
the exporter is element 0 of the full report and is always excluded. -/
theorem filter_excludes_header :
    (∀ (approved : Finset Int) (replies : List ReportEntry) (r : ReportEntry),
        r ∈ replies_of_topic approved replies →
          (∃ v, getIsOfTopic r = some v ∧ v ∈ approved) ∧
          ∀ d ve ye, r ≠ ReportEntry.header d ve ye)
    ∧ (∀ (topic_desc conf year : String) (judge : String → String → String)
        (papers : List PaperInfo) (approved : Finset Int),
        (mainLoop judge topic_desc conf year (initDriverState topic_desc conf year) papers).replies.head?
            = some (ReportEntry.header topic_desc conf year)
        ∧ ReportEntry.header topic_desc conf year ∉
            replies_of_topic approved
              (mainLoop judge topic_desc conf year (initDriverState topic_desc conf year) papers).replies) := by
  constructor
  · intro approved replies r h
    obtain ⟨-, v, hv, hva⟩ := mem_replies_of_topic h
    refine ⟨⟨v, hv, hva⟩, ?_⟩
    rintro d ve ye rfl
    simp [getIsOfTopic] at hv
  · intro td conf yr judge papers approved
    constructor
    · rw [mainLoop_replies]
      rfl
    · intro hmem
      obtain ⟨-, v, hv, -⟩ := mem_replies_of_topic hmem
      simp [getIsOfTopic] at hv

theorem filter_excludes_header_witness :
    (ReportEntry.result "A" "x" (some 1) "r") ∈
        replies_of_topic {1}
          [ReportEntry.header "t" "c" "y", ReportEntry.result "A" "x" (some 1) "r"] ∧
    (∃ v, getIsOfTopic (ReportEntry.result "A" "x" (some 1) "r") = some v
        ∧ v ∈ ({1} : Finset Int)) := by
  have h := filter_excludes_header.1 {1}
    [ReportEntry.header "t" "c" "y", ReportEntry.result "A" "x" (some 1) "r"]
    (ReportEntry.result "A" "x" (some 1) "r") (by decide)
  exact ⟨by decide, h.1⟩

/-- C9 counterexample: the selection "1,5" is accepted by the validation
with the accepted set made equal to the integers 1 and 5, which is not a
subset of -1, 0, 1 — the exporter does not validate the selection to be a
subset of the three verdict values. -/
theorem selection_validation_counterexample :
    selectionStep "1,5" = SelectionOutcome.accepted {1, 5} ∧
    ¬ (({1, 5} : Finset Int) ⊆ ({-1, 0, 1} : Finset Int)) := by
  decide

/-- C9 (amended): the exporter accepts any operator-chosen set of integers
whose intersection with -1, 0, 1 is non-empty (not necessarily a subset of
those three values); an empty or non-numeric selection re-prompts; an
answer of n ends the export with no output written. -/
theorem selection_validation (dummyApproved : Finset Int) :
    selectionStep "n" = SelectionOutcome.endExport
    ∧ selectionStep "" = SelectionOutcome.reprompt
    ∧ selectionStep "abc" = SelectionOutcome.reprompt
    ∧ (∀ (rest : List String) (replies : List ReportEntry),
        extract_papers_of_topic ("n" :: rest) replies = some none)
    ∧ (∀ (answer : String) (rest : List String) (replies : List ReportEntry),
        selectionStep answer = SelectionOutcome.reprompt →
        extract_papers_of_topic (answer :: rest) replies = extract_papers_of_topic rest replies)
    ∧ (∀ (answer : String),
        selectionStep answer = SelectionOutcome.accepted dummyApproved →
        -1 ∈ dummyApproved ∨ 0 ∈ dummyApproved ∨ 1 ∈ dummyApproved) := by
  refine ⟨by decide, by decide, by decide, ?_, ?_, ?_⟩
  · intro rest replies
    simp only [extract_papers_of_topic]
    rw [show selectionStep "n" = SelectionOutcome.endExport from by decide]
  · intro answer rest replies h
    simp only [extract_papers_of_topic]
    rw [h]
  · intro answer h
    simp only [selectionStep] at h
    split at h
    · exact absurd h (by simp)
    · split at h
      · exact absurd h (by simp)
      · split at h
        · rename_i hc
          cases h
          exact hc
        · exact absurd h (by simp)

theorem selection_validation_witness :
    selectionStep "1" = SelectionOutcome.accepted {1} ∧
    ((-1 : Int) ∈ ({1} : Finset Int) ∨ (0 : Int) ∈ ({1} : Finset Int) ∨
      (1 : Int) ∈ ({1} : Finset Int)) :=
  ⟨by decide, (selection_validation {1}).2.2.2.2.2 "1" (by decide)⟩

theorem isPre_iff (p : List Char) : ∀ s : List Char, isPre p s = true ↔ p <+: s := by
  induction p with
  | nil => intro s; simp [isPre, List.nil_prefix]
  | cons x xs ih =>
    intro s
    cases s with
    | nil => simp [isPre, List.prefix_nil]
    | cons c cs => simp [isPre, ih, List.cons_prefix_cons]

theorem isPre_self_app (p t : List Char) : isPre p (p ++ t) = true :=
  (isPre_iff p (p ++ t)).mpr ⟨t, rfl⟩

theorem containsPat_drop {pat s : List Char} (h : containsPat pat s = false) :
    ∀ i, ¬ pat <+: List.drop i s := by
  induction s with
  | nil =>
    intro i hp
    simp only [containsPat, List.isEmpty_iff] at h
    rw [List.drop_nil] at hp
    obtain ⟨t, ht⟩ := hp
    have hnil := (List.append_eq_nil.mp ht).1
    rw [hnil] at h
    simp at h
  | cons c rest ih =>
    intro i hp
    simp only [containsPat, Bool.or_eq_false_iff] at h
    obtain ⟨h1, h2⟩ := h
    cases i with
    | zero =>
      rw [List.drop_zero] at hp
      rw [(isPre_iff _ _).mpr hp] at h1
      exact Bool.noConfusion h1
    | succ i =>
      exact ih h2 i (by simpa using hp)

theorem prefixAppendCases {p a b : List Char} (h : p <+: a ++ b) :
    p <+: a ∨ (a <+: p ∧ List.drop a.length p <+: b) := by
  obtain ⟨t, ht⟩ := h
  rcases List.append_eq_append_iff.mp ht with ⟨u, hu1, hu2⟩ | ⟨u, hu1, hu2⟩
  · exact Or.inl ⟨u, hu1.symm⟩
  · refine Or.inr ⟨⟨u, hu1.symm⟩, ?_⟩
    rw [hu1, List.drop_left]
    exact ⟨t, hu2.symm⟩

theorem noHitIn_append {pat a b ys : List Char} (h1 : noHitIn pat a (b ++ ys))
    (h2 : noHitIn pat b ys) : noHitIn pat (a ++ b) ys := by
  intro i hi hp
  rcases Nat.lt_or_ge i a.length with hlt | hge
  · apply h1 i hlt
    rw [List.drop_append_of_le_length (le_of_lt hlt), List.append_assoc] at hp
    exact hp
  · have hi2 : i - a.length < b.length := by
      rw [List.length_append] at hi
      omega
    apply h2 (i - a.length) hi2
    have hd : List.drop i (a ++ b) = List.drop (i - a.length) b := by
      have h3 := @List.drop_append Char a b (i - a.length)
      rw [show a.length + (i - a.length) = i from by omega] at h3
      exact h3
    rw [hd] at hp
    exact hp

theorem noHitIn_brace {pat xs ys : List Char} (hp : pat.head? = some lbraceC)
    (hxs : lbraceC ∉ xs) : noHitIn pat xs ys := by
  intro i hi hpre
  cases pat with
  | nil => simp at hp
  | cons p0 pt =>
    have hp0 : p0 = lbraceC := by simpa using hp
    obtain ⟨t, ht⟩ := hpre
    rw [List.drop_eq_getElem_cons hi] at ht
    simp only [List.cons_append] at ht
    injection ht with ht1 _
    exact hxs (hp0 ▸ ht1 ▸ List.getElem_mem hi)

theorem noHitIn_free {pat s ys : List Char} {c : Char}
    (hs : containsPat pat s = false) (hy : ys.head? = some c) (hc : c ∉ pat) :
    noHitIn pat s ys := by
  intro i hi hpre
  rcases prefixAppendCases hpre with h1 | ⟨h2, h3⟩
  · exact containsPat_drop hs i h1
  · have hk2 : (List.drop i s).length ≤ pat.length := h2.length_le
    by_cases heq : (List.drop i s).length = pat.length
    · have hdp : List.drop i s = pat := h2.eq_of_length heq
      exact containsPat_drop hs i (hdp ▸ List.prefix_rfl)
    · have hlt : (List.drop i s).length < pat.length := lt_of_le_of_ne hk2 heq
      cases ys with
      | nil => simp at hy
      | cons y ys2 =>
        have hyc : y = c := by simpa using hy
        obtain ⟨t, ht⟩ := h3
        rw [List.drop_eq_getElem_cons hlt] at ht
        simp only [List.cons_append] at ht
        injection ht with ht1 _
        exact hc (hyc ▸ ht1 ▸ List.getElem_mem hlt)

theorem replaceAllAux_nc (pat sub : List Char) :
    ∀ (s : List Char) (f : Nat), containsPat pat s = false → replaceAllAux pat sub f s = s := by
  intro s
  induction s with
  | nil => intro f h; cases f <;> rfl
  | cons c rest ih =>
    intro f h
    simp only [containsPat, Bool.or_eq_false_iff] at h
    cases f with
    | zero => rfl
    | succ f2 =>
      rw [replaceAllAux, if_neg (by simp [h.1]), ih f2 h.2]

theorem replaceAllAux_skip (pat sub : List Char) :
    ∀ (xs ys : List Char) (f : Nat), noHitIn pat xs ys →
      replaceAllAux pat sub (xs.length + f) (xs ++ ys) = xs ++ replaceAllAux pat sub f ys := by
  intro xs
  induction xs with
  | nil => intro ys f _; simp
  | cons x xs2 ih =>
    intro ys f h
    have h0 : ¬ pat <+: (x :: (xs2 ++ ys)) := by
      have hz := h 0 (by simp)
      simpa using hz
    have hlen : (x :: xs2).length + f = (xs2.length + f) + 1 := by
      simp only [List.length_cons]
      omega
    rw [hlen]
    show replaceAllAux pat sub ((xs2.length + f) + 1) (x :: (xs2 ++ ys)) = _
    rw [replaceAllAux, if_neg (fun hb => h0 ((isPre_iff _ _).mp hb))]
    rw [ih ys f (fun i hi hp => h (i + 1) (by simp only [List.length_cons]; omega) (by simpa using hp))]
    rfl

theorem replaceAllAux_hit (pat sub post : List Char) (f : Nat) (hpat : pat ≠ []) :
    replaceAllAux pat sub (f + 1) (pat ++ post) = sub ++ replaceAllAux pat sub f post := by
  obtain ⟨c, pt, rfl⟩ := List.exists_cons_of_ne_nil hpat
  show replaceAllAux (c :: pt) sub (f + 1) (c :: (pt ++ post)) = _
  rw [replaceAllAux, if_pos (isPre_self_app (c :: pt) post ▸ by rfl)]
  have hdrop : List.drop (c :: pt).length (c :: (pt ++ post)) = post := by
    simp only [List.length_cons, List.drop_succ_cons]
    exact List.drop_left pt post
  rw [hdrop]

theorem replaceAll_exact {pat sub pre post s : List Char} (hs : s = pre ++ (pat ++ post))
    (hpat : pat ≠ []) (hpre : noHitIn pat pre (pat ++ post))
    (hpost : containsPat pat post = false) :
    replaceAllAux pat sub s.length s = pre ++ (sub ++ post) := by
  subst hs
  have hlen : (pre ++ (pat ++ post)).length = pre.length + (pat.length + post.length) := by
    simp
  rw [hlen, replaceAllAux_skip pat sub pre (pat ++ post) (pat.length + post.length) hpre]
  have h2 : pat.length + post.length = (pat.length - 1 + post.length) + 1 := by
    cases pat with
    | nil => exact absurd rfl hpat
    | cons a b =>
      simp only [List.length_cons]
      omega
  rw [h2, replaceAllAux_hit pat sub post _ hpat, replaceAllAux_nc pat sub post _ hpost]

/-- C4 counterexample: when the topic description is itself the literal
paper-title placeholder, the chained replacement rewrites the injected text
again, so the built message differs from the template with each placeholder
replaced exactly once (the topic slot ends up holding the title). -/
theorem prompt_substitution_counterexample :
    buildUserPrompt phPaperTitle "T" "V" "Y" "A" ≠ userPromptSpec phPaperTitle "T" "V" "Y" "A" := by
  decide

/-- C4 (amended): for every TopicQuery and PaperRecord whose five input
strings contain no placeholder-looking substring, the prompt builder
replaces each of the five template placeholders exactly once, by literal
substitution with no escaping: the built user message equals the template
with the five values substituted simultaneously.  (When an input does
contain a placeholder-looking substring the behavior is
substitution-order-dependent, see the counterexample.) -/
theorem prompt_substitution_exact (td t v y a : String)
    (h1 : phFree td) (h2 : phFree t) (h3 : phFree v) (h4 : phFree y) (h5 : phFree a) :
    -- h5 is kept so that the hypothesis is symmetric in the five inputs

    buildUserPrompt td t v y a = userPromptSpec td t v y a := by
  have hs1 : PPFILTER_USRPROMPT.data
      = seg1.data ++ (phTopicDescription.data ++ tplRest1) := by decide
  have hpre1 : noHitIn phTopicDescription.data seg1.data
      (phTopicDescription.data ++ tplRest1) :=
    noHitIn_brace (by decide) (by decide)
  have e1 : (pyReplace PPFILTER_USRPROMPT phTopicDescription td).data
      = seg1.data ++ (td.data ++ tplRest1) :=
    replaceAll_exact hs1 (by decide) hpre1 (by decide)
  have hs2 : (pyReplace PPFILTER_USRPROMPT phTopicDescription td).data
      = (seg1.data ++ (td.data ++ seg2.data)) ++ (phPaperTitle.data ++ tplRest2) := by
    rw [e1, show tplRest1 = seg2.data ++ (phPaperTitle.data ++ tplRest2) from rfl]
    simp [List.append_assoc]
  have hpre2 : noHitIn phPaperTitle.data (seg1.data ++ (td.data ++ seg2.data))
      (phPaperTitle.data ++ tplRest2) := by
    apply noHitIn_append
    · exact noHitIn_brace (by decide) (by decide)
    · apply noHitIn_append
      · exact noHitIn_free h1.2.1 (by rfl) (by decide)
      · exact noHitIn_brace (by decide) (by decide)
  have e2 : (pyReplace (pyReplace PPFILTER_USRPROMPT phTopicDescription td) phPaperTitle t).data
      = (seg1.data ++ (td.data ++ seg2.data)) ++ (t.data ++ tplRest2) :=
    replaceAll_exact hs2 (by decide) hpre2 (by decide)
  have hs3 : (pyReplace (pyReplace PPFILTER_USRPROMPT phTopicDescription td) phPaperTitle t).data
      = ((seg1.data ++ (td.data ++ seg2.data)) ++ (t.data ++ seg3.data))
        ++ (phPaperVenue.data ++ tplRest3) := by
    rw [e2, show tplRest2 = seg3.data ++ (phPaperVenue.data ++ tplRest3) from rfl]
    simp [List.append_assoc]
  have hpre3 : noHitIn phPaperVenue.data
      ((seg1.data ++ (td.data ++ seg2.data)) ++ (t.data ++ seg3.data))
      (phPaperVenue.data ++ tplRest3) := by
    apply noHitIn_append
    · apply noHitIn_append
      · exact noHitIn_brace (by decide) (by decide)
      · apply noHitIn_append
        · exact noHitIn_free h1.2.2.1 (by rfl) (by decide)
        · exact noHitIn_brace (by decide) (by decide)
    · apply noHitIn_append
      · exact noHitIn_free h2.2.2.1 (by rfl) (by decide)
      · exact noHitIn_brace (by decide) (by decide)
  have e3 : (pyReplace (pyReplace (pyReplace PPFILTER_USRPROMPT phTopicDescription td)
        phPaperTitle t) phPaperVenue v).data
      = ((seg1.data ++ (td.data ++ seg2.data)) ++ (t.data ++ seg3.data))
        ++ (v.data ++ tplRest3) :=
    replaceAll_exact hs3 (by decide) hpre3 (by decide)
  have hs4 : (pyReplace (pyReplace (pyReplace PPFILTER_USRPROMPT phTopicDescription td)
        phPaperTitle t) phPaperVenue v).data
      = (((seg1.data ++ (td.data ++ seg2.data)) ++ (t.data ++ seg3.data))
          ++ (v.data ++ seg4.data)) ++ (phPaperYear.data ++ tplRest4) := by
    rw [e3, show tplRest3 = seg4.data ++ (phPaperYear.data ++ tplRest4) from rfl]
    simp [List.append_assoc]
  have hpre4 : noHitIn phPaperYear.data
      (((seg1.data ++ (td.data ++ seg2.data)) ++ (t.data ++ seg3.data))
        ++ (v.data ++ seg4.data))
      (phPaperYear.data ++ tplRest4) := by
    apply noHitIn_append
    · apply noHitIn_append
      · apply noHitIn_append
        · exact noHitIn_brace (by decide) (by decide)
        · apply noHitIn_append
          · exact noHitIn_free h1.2.2.2.1 (by rfl) (by decide)
          · exact noHitIn_brace (by decide) (by decide)
      · apply noHitIn_append
        · exact noHitIn_free h2.2.2.2.1 (by rfl) (by decide)
        · exact noHitIn_brace (by decide) (by decide)
    · apply noHitIn_append
      · exact noHitIn_free h3.2.2.2.1 (by rfl) (by decide)
      · exact noHitIn_brace (by decide) (by decide)
  have e4 : (pyReplace (pyReplace (pyReplace (pyReplace PPFILTER_USRPROMPT phTopicDescription td)
        phPaperTitle t) phPaperVenue v) phPaperYear y).data
      = (((seg1.data ++ (td.data ++ seg2.data)) ++ (t.data ++ seg3.data))
          ++ (v.data ++ seg4.data)) ++ (y.data ++ tplRest4) :=
    replaceAll_exact hs4 (by decide) hpre4 (by decide)
  have hs5 : (pyReplace (pyReplace (pyReplace (pyReplace PPFILTER_USRPROMPT phTopicDescription td)
        phPaperTitle t) phPaperVenue v) phPaperYear y).data
      = ((((seg1.data ++ (td.data ++ seg2.data)) ++ (t.data ++ seg3.data))
          ++ (v.data ++ seg4.data)) ++ (y.data ++ seg5.data))
        ++ (phPaperAbstract.data ++ seg6.data) := by
    rw [e4, show tplRest4 = seg5.data ++ (phPaperAbstract.data ++ seg6.data) from rfl]
    simp [List.append_assoc]
  have hpre5 : noHitIn phPaperAbstract.data
      ((((seg1.data ++ (td.data ++ seg2.data)) ++ (t.data ++ seg3.data))
          ++ (v.data ++ seg4.data)) ++ (y.data ++ seg5.data))
      (phPaperAbstract.data ++ seg6.data) := by
    apply noHitIn_append
    · apply noHitIn_append
      · apply noHitIn_append
        · apply noHitIn_append
          · exact noHitIn_brace (by decide) (by decide)
          · apply noHitIn_append
            · exact noHitIn_free h1.2.2.2.2 (by rfl) (by decide)
            · exact noHitIn_brace (by decide) (by decide)
        · apply noHitIn_append
          · exact noHitIn_free h2.2.2.2.2 (by rfl) (by decide)
          · exact noHitIn_brace (by decide) (by decide)
      · apply noHitIn_append
        · exact noHitIn_free h3.2.2.2.2 (by rfl) (by decide)
        · exact noHitIn_brace (by decide) (by decide)
    · apply noHitIn_append
      · exact noHitIn_free h4.2.2.2.2 (by rfl) (by decide)
      · exact noHitIn_brace (by decide) (by decide)
  have e5 : (buildUserPrompt td t v y a).data
      = ((((seg1.data ++ (td.data ++ seg2.data)) ++ (t.data ++ seg3.data))
          ++ (v.data ++ seg4.data)) ++ (y.data ++ seg5.data))
        ++ (a.data ++ seg6.data) :=
    replaceAll_exact hs5 (by decide) hpre5 (by decide)
  apply String.ext
  rw [e5]
  simp [userPromptSpec, List.append_assoc]

theorem prompt_substitution_exact_witness :
    (phFree "quantum computing" ∧ phFree "Paper T" ∧ phFree "CVPR" ∧
      phFree "2025" ∧ phFree "An abstract.") ∧
    buildUserPrompt "quantum computing" "Paper T" "CVPR" "2025" "An abstract."
      = userPromptSpec "quantum computing" "Paper T" "CVPR" "2025" "An abstract." :=
  ⟨⟨by decide, by decide, by decide, by decide, by decide⟩,
    prompt_substitution_exact "quantum computing" "Paper T" "CVPR" "2025" "An abstract."
      (by decide) (by decide) (by decide) (by decide) (by decide)⟩

theorem matchCI_length : ∀ (p s r : List Char), matchCI p s = some r → r.length + p.length = s.length := by
  intro p
  induction p with
  | nil =>
    intro s r h
    simp [matchCI] at h
    subst h
    simp
  | cons x xs ih =>
    intro s r h
    cases s with
    | nil => simp [matchCI] at h
    | cons c cs =>
      rw [matchCI] at h
      split at h
      · have hr := ih cs r h
        simp only [List.length_cons]
        omega
      · exact absurd h (by simp)

theorem dropWs_length (s : List Char) : (dropWs s).length ≤ s.length :=
  (List.dropWhile_suffix _).length_le

theorem dropColon_length (s : List Char) : (dropColon s).length ≤ s.length := by
  cases s with
  | nil => exact le_rfl
  | cons c rest =>
    rw [dropColon]
    split
    · simp only [List.length_cons]
      omega
    · exact le_rfl

theorem dropEmph_length : ∀ s : List Char, (dropEmph s).length ≤ s.length := by
  intro s
  induction s using dropEmph.induct with
  | case1 rest ih =>
    rw [dropEmph]
    simp only [List.length_cons]
    omega
  | case2 c rest hno hor ih =>
    rw [dropEmph]
    · simp only [List.length_cons]
      rw [if_pos hor]
      omega
    · exact hno
  | case3 c rest hno hnor =>
    rw [dropEmph]
    · rw [if_neg hnor]
    · exact hno
  | case4 => exact le_rfl

theorem emphB_length_aux : ∀ (n : Nat) (prev : Char) (s : List Char), s.length ≤ n →
    ∀ r, emphB prev s = some r → r.length ≤ s.length := by
  intro n
  induction n with
  | zero =>
    intro prev s hs r h
    have hnil : s = [] := List.eq_nil_of_length_eq_zero (Nat.le_zero.mp hs)
    subst hnil
    rw [emphB] at h
    split at h
    · injection h with h2
      subst h2
      exact le_rfl
    · exact absurd h (by simp)
  | succ n ih =>
    intro prev s hs r h
    rw [emphB.eq_def] at h
    split at h
    · rename_i rest
      split at h
      · rename_i r2 hr2
        injection h with h2
        subst h2
        have hb := ih '*' rest (by simp only [List.length_cons] at hs; omega) r2 hr2
        simp only [List.length_cons]
        omega
      · split at h
        · injection h with h2
          subst h2
          exact le_rfl
        · exact absurd h (by simp)
    · rename_i c rest hno
      split at h
      · split at h
        · rename_i r2 hr2
          injection h with h2
          subst h2
          have hb := ih c rest (by simp only [List.length_cons] at hs; omega) r2 hr2
          simp only [List.length_cons]
          omega
        · split at h
          · injection h with h2
            subst h2
            exact le_rfl
          · exact absurd h (by simp)
      · split at h
        · injection h with h2
          subst h2
          exact le_rfl
        · exact absurd h (by simp)
    · split at h
      · injection h with h2
        subst h2
        exact le_rfl
      · exact absurd h (by simp)

theorem emphB_length {prev : Char} {s r : List Char} (h : emphB prev s = some r) :
    r.length ≤ s.length :=
  emphB_length_aux s.length prev s le_rfl r h

theorem matchValue_length {s : List Char} {v : Int} {r : List Char}
    (h : matchValue s = some (v, r)) : r.length < s.length := by
  rw [matchValue.eq_def] at h
  split at h <;>
    first
    | (simp only [Option.map_eq_some'] at h
       obtain ⟨r2, hr2, heq⟩ := h
       cases heq
       have hb := emphB_length hr2
       simp only [List.length_cons]
       omega)
    | exact absurd h (by simp)

theorem matchResultAt_length {s : List Char} {v : Int} {r : List Char}
    (h : matchResultAt s = some (v, r)) : r.length < s.length := by
  unfold matchResultAt at h
  split at h
  · exact absurd h (by simp)
  · rename_i s1 hs1
    have h1 : s1.length + 6 = s.length := matchCI_length resultPat s s1 hs1
    have h2 := dropWs_length (dropColon (dropWs s1))
    have h3 := dropColon_length (dropWs s1)
    have h4 := dropWs_length s1
    have h5 := dropEmph_length (dropWs (dropColon (dropWs s1)))
    have h6 := matchValue_length h
    omega

theorem findallAux_fuel_aux : ∀ (n : Nat) (s : List Char), s.length ≤ n →
    ∀ f g, s.length ≤ f → s.length ≤ g → findallAux f s = findallAux g s := by
  intro n
  induction n with
  | zero =>
    intro s hs f g _ _
    have hnil : s = [] := List.eq_nil_of_length_eq_zero (Nat.le_zero.mp hs)
    subst hnil
    cases f <;> cases g <;> rfl
  | succ n ih =>
    intro s hs f g hf hg
    cases s with
    | nil => cases f <;> cases g <;> rfl
    | cons c rest =>
      cases f with
      | zero => simp at hf
      | succ f2 =>
        cases g with
        | zero => simp at hg
        | succ g2 =>
          rw [findallAux, findallAux]
          cases h : matchResultAt (c :: rest) with
          | some p =>
            obtain ⟨w, r⟩ := p
            have hr : r.length < (c :: rest).length := matchResultAt_length h
            have he : findallAux f2 r = findallAux g2 r := by
              apply ih r
              · simp only [List.length_cons] at hr hs
                omega
              · simp only [List.length_cons] at hr hf
                omega
              · simp only [List.length_cons] at hr hg
                omega
            show w :: findallAux f2 r = w :: findallAux g2 r
            rw [he]
          | none =>
            show findallAux f2 rest = findallAux g2 rest
            apply ih rest
            · simp only [List.length_cons] at hs
              omega
            · simp only [List.length_cons] at hf
              omega
            · simp only [List.length_cons] at hg
              omega

/-- Fuel adequacy for the findall scan: any fuel of at least the input
length computes the same capture list, so fuel = input length (as used in
reFindall) is faithful to the unbounded scan. -/
theorem findallAux_fuel (s : List Char) (f : Nat) (hf : s.length ≤ f) :
    findallAux f s = reFindall s :=
  findallAux_fuel_aux s.length s le_rfl f s.length hf le_rfl
